import Mathlib

/-!
# Verification of the NES PPU scheduler core (run.rs / screen.rs)

A shallow embedding of the emulation-scheduler core of the `tudelft-nes-ppu`
repository: the message-drain loop, the pointer-to-pixel resolver, the
pointed-pixel sampler, the batched CPU/PPU stepping loop with its bounded /
unbounded exits, and the staging-buffer / shared-surface operations of
`screen.rs`.  Machine integers are modelled as `Nat`/`Int`; `f64` pointer
coordinates are modelled as `ℚ` (exact on every input considered here);
Rust panics are modelled as `Option.none`; real time (`Instant`) is
abstracted to a boolean flag recording that the pacing reference clock was
reset.
-/

/-- Modelled from the spec: the crate-level constant `WIDTH` (the emulated
horizontal resolution) is declared outside the provided sources; the spec
fixes the emulated resolution at (256, 240). -/
def WIDTH : Nat := 256

/-- Modelled from the spec: the crate-level constant `HEIGHT` (the emulated
vertical resolution), fixed by the spec at 240. -/
def HEIGHT : Nat := 240

/-- `Buttons` from `screen.rs`: all sixteen button flags (eight per
controller), `true` = pressed. -/
structure Buttons where
  a1 : Bool
  b1 : Bool
  up1 : Bool
  down1 : Bool
  left1 : Bool
  right1 : Bool
  select1 : Bool
  start1 : Bool
  a2 : Bool
  b2 : Bool
  up2 : Bool
  down2 : Bool
  left2 : Bool
  right2 : Bool
  select2 : Bool
  start2 : Bool
deriving DecidableEq, Repr

/-- The all-unpressed button state (Rust `Buttons::default()`). -/
def buttons0 : Buttons :=
  ⟨false, false, false, false, false, false, false, false,
   false, false, false, false, false, false, false, false⟩

/-- `Buttons::get_by_index` from `screen.rs`: shift-register read order,
with a catch-all `false` for out-of-range indices.  The Rust argument is a
`u8`; we model the index as `Nat`, a superset of the `u8` range. -/
def Buttons.get_by_index (b : Buttons) (idx : Nat) : Bool :=
  match idx with
  | 0 => b.a1
  | 1 => b.b1
  | 2 => b.select1
  | 3 => b.start1
  | 4 => b.up1
  | 5 => b.down1
  | 6 => b.left1
  | 7 => b.right1
  | 8 => b.a2
  | 9 => b.b2
  | 10 => b.select2
  | 11 => b.start2
  | 12 => b.up2
  | 13 => b.down2
  | 14 => b.left2
  | 15 => b.right2
  | _ => false

/-- C9: `Buttons::get_by_index` is total: indices 0–15 return the stored
flag of the corresponding button in shift-register order (A, B, Select,
Start, Up, Down, Left, Right for controller 1, then the same for
controller 2), and every index greater than 15 returns `false` rather than
failing. -/
theorem c9_get_by_index_total (b : Buttons) :
    (b.get_by_index 0 = b.a1 ∧ b.get_by_index 1 = b.b1 ∧
     b.get_by_index 2 = b.select1 ∧ b.get_by_index 3 = b.start1 ∧
     b.get_by_index 4 = b.up1 ∧ b.get_by_index 5 = b.down1 ∧
     b.get_by_index 6 = b.left1 ∧ b.get_by_index 7 = b.right1 ∧
     b.get_by_index 8 = b.a2 ∧ b.get_by_index 9 = b.b2 ∧
     b.get_by_index 10 = b.select2 ∧ b.get_by_index 11 = b.start2 ∧
     b.get_by_index 12 = b.up2 ∧ b.get_by_index 13 = b.down2 ∧
     b.get_by_index 14 = b.left2 ∧ b.get_by_index 15 = b.right2) ∧
    ∀ idx, 15 < idx → b.get_by_index idx = false := by
  refine ⟨⟨rfl, rfl, rfl, rfl, rfl, rfl, rfl, rfl, rfl, rfl, rfl, rfl, rfl,
    rfl, rfl, rfl⟩, ?_⟩
  intro idx h
  obtain ⟨n, rfl⟩ : ∃ n, idx = n + 16 := ⟨idx - 16, by omega⟩
  rfl

/-- C9 witness: a concrete out-of-range index evaluates to `false`. -/
theorem c9_get_by_index_total_w : Buttons.get_by_index buttons0 20 = false :=
  (c9_get_by_index_total buttons0).2 20 (by decide)

/-!
## Pointer-to-pixel resolver (`run.rs`, `Message::PixelPointed` arm)

The Rust code computes, per axis,
`((dim as f64) * (pos / screensize)) as i32` and then clamps with
`v.min(0).max(dim - 1)`.  `f64` values are modelled as `ℚ` (every value in
the claims is exactly representable) and the saturating `as i32` cast as
truncation toward zero clamped to the `i32` range.
-/

/-- The Rust `as i32` cast applied to a real value: truncation toward zero
(on ℚ, `Int.tdiv num den`), saturated to the `i32` range. -/
def i32cast (q : ℚ) : Int :=
  max (-(2 ^ 31)) (min (2 ^ 31 - 1) (Int.tdiv q.num q.den))

/-- The per-axis clamp exactly as written in `run.rs`:
`px.min(0).max(dim - 1)`, i.e. `max (min v 0) (dim - 1)`. -/
def clampAxis (v dim : Int) : Int := max (min v 0) (dim - 1)

/-- One axis of the `Message::PixelPointed` arm of `run_ppu`:
relative position `pos / winSize`, scaled by the emulated dimension,
cast to `i32`, then clamped with the `min(0).max(dim-1)` chain. -/
def resolveAxis (pos winSize : ℚ) (dim : Int) : Int :=
  clampAxis (i32cast ((dim : ℚ) * (pos / winSize))) dim

/-- Both axes of the resolver, with the crate's emulated resolution. -/
def resolvePointer (posx posy winW winH : ℚ) : Int × Int :=
  (resolveAxis posx winW (WIDTH : Nat), resolveAxis posy winH (HEIGHT : Nat))

/-- C1: the pointer-to-pixel resolver does NOT clamp into `[0, dim-1]`:
the chain `v.min(0).max(dim-1)` is inverted, so for the emulated
dimensions every pointer resolves to `(255, 239)`.  In particular, with
window size (256, 240), pointer (128, 120) resolves to (255, 239), not to
(128, 120), and pointer (0, 0) also resolves to (255, 239).  The spec's
stated clamping (and its concrete examples) is the intent; the code's
clamp direction is the slip the spec itself flags as a likely defect. -/
theorem c1_resolver_clamp_inverted :
    resolvePointer 128 120 256 240 = (255, 239) ∧
    resolvePointer 128 120 256 240 ≠ (128, 120) ∧
    resolvePointer 0 0 256 240 = (255, 239) ∧
    (∀ v : Int, clampAxis v 256 = 255) ∧
    (∀ v : Int, clampAxis v 240 = 239) := by
  have h256 : ∀ v : Int, clampAxis v 256 = 255 := by
    intro v
    simp only [clampAxis]
    omega
  have h240 : ∀ v : Int, clampAxis v 240 = 239 := by
    intro v
    simp only [clampAxis]
    omega
  refine ⟨?_, ?_, ?_, h256, h240⟩ <;>
    simp [resolvePointer, resolveAxis, WIDTH, HEIGHT, h256, h240]

/-!
## Control messages and the scheduler's per-iteration drain (`run.rs`)

`run_ppu` drains the control channel non-blockingly at the start of every
inner iteration.  Button messages update the button state; `Pause(true)`
enters a blocking `while let Pause(true) = recv()` stall; `Pause(false)`
is a no-op; `PixelPointed` runs the resolver.  The stall is modelled by a
`stalled` flag: while stalled, a `Pause(true)` message keeps stalling and
ANY other message ends the stall, is consumed and discarded, and resets
the pacing reference clock (`last_tick = Instant::now()`), which we record
as the boolean `lastTickReset`.  Draining a queue that leaves the loop
stalled (the real code would block on `recv`) is modelled as `none`.
-/

/-- `ButtonName` from `screen.rs`. -/
inductive ButtonName where
  | A1 | B1 | Up1 | Down1 | Left1 | Right1 | Start1 | Select1
  | A2 | B2 | Up2 | Down2 | Left2 | Right2 | Start2 | Select2
deriving DecidableEq, Repr

/-- `Message` from `screen.rs`; the `f64` pointer coordinates are
modelled as `ℚ`. -/
inductive Message where
  | button : ButtonName → Bool → Message
  | pause : Bool → Message
  | pixelPointed : ℚ → ℚ → Message
deriving DecidableEq

/-- The `Message::Button` arm of `run_ppu`: store `pressed` into the named
field of `ppu.buttons`. -/
def setButton (b : Buttons) (name : ButtonName) (pressed : Bool) : Buttons :=
  match name with
  | .A1 => { b with a1 := pressed }
  | .B1 => { b with b1 := pressed }
  | .Up1 => { b with up1 := pressed }
  | .Down1 => { b with down1 := pressed }
  | .Left1 => { b with left1 := pressed }
  | .Right1 => { b with right1 := pressed }
  | .Start1 => { b with start1 := pressed }
  | .Select1 => { b with select1 := pressed }
  | .A2 => { b with a2 := pressed }
  | .B2 => { b with b2 := pressed }
  | .Up2 => { b with up2 := pressed }
  | .Down2 => { b with down2 := pressed }
  | .Left2 => { b with left2 := pressed }
  | .Right2 => { b with right2 := pressed }
  | .Start2 => { b with start2 := pressed }
  | .Select2 => { b with select2 := pressed }

/-- Reading one named button flag (the field access the PPU performs). -/
def getButton (b : Buttons) (name : ButtonName) : Bool :=
  match name with
  | .A1 => b.a1
  | .B1 => b.b1
  | .Up1 => b.up1
  | .Down1 => b.down1
  | .Left1 => b.left1
  | .Right1 => b.right1
  | .Start1 => b.start1
  | .Select1 => b.select1
  | .A2 => b.a2
  | .B2 => b.b2
  | .Up2 => b.up2
  | .Down2 => b.down2
  | .Left2 => b.left2
  | .Right2 => b.right2
  | .Start2 => b.start2
  | .Select2 => b.select2

/-- The scheduler-local state touched by the message drain: the PPU's
button state, the resolved pointer coordinates `px`/`py`, and a flag
recording that `last_tick` was reset by a pause/resume. -/
structure DrainState where
  buttons : Buttons
  px : Int
  py : Int
  lastTickReset : Bool
deriving DecidableEq, Repr

/-- The drain loop of `run_ppu` over the queued messages, with the
`Pause(true)` stall encoded by the `stalled` flag (see the section
comment).  `none` models the drain blocking forever on `recv`. -/
def drainAux (winW winH : ℚ) : Bool → DrainState → List Message → Option DrainState
  | false, s, [] => some s
  | true, _, [] => none
  | false, s, .button name pressed :: rest =>
      drainAux winW winH false { s with buttons := setButton s.buttons name pressed } rest
  | false, s, .pause true :: rest => drainAux winW winH true s rest
  | false, s, .pause false :: rest => drainAux winW winH false s rest
  | false, s, .pixelPointed x y :: rest =>
      drainAux winW winH false
        { s with px := resolveAxis x winW (WIDTH : Nat),
                 py := resolveAxis y winH (HEIGHT : Nat) } rest
  | true, s, .pause true :: rest => drainAux winW winH true s rest
  | true, s, _ :: rest =>
      drainAux winW winH false { s with lastTickReset := true } rest

/-- The full non-blocking drain at the start of an inner iteration. -/
def drain (winW winH : ℚ) (s : DrainState) (msgs : List Message) : Option DrainState :=
  drainAux winW winH false s msgs

/-- The initial drain state: all buttons up, pointer at the origin. -/
def drainInit : DrainState := ⟨buttons0, 0, 0, false⟩

/-- While stalled, a prefix of `Pause(true)` messages is consumed without
any effect. -/
theorem drainAux_stall_skip (winW winH : ℚ) (s : DrainState)
    (pre l : List Message) (hpre : ∀ x ∈ pre, x = Message.pause true) :
    drainAux winW winH true s (pre ++ l) = drainAux winW winH true s l := by
  induction pre with
  | nil => rfl
  | cons x rest ih =>
      have hx : x = Message.pause true := hpre x (by simp)
      subst hx
      simpa [drainAux] using ih (fun y hy => hpre y (by simp [hy]))

/-- C2 counterexample: queue `[Pause(true), Button(A1,true), Pause(false)]`.
The claim says the stall lasts until `Pause(false)` is received and the
`Button(A1,true)` sent during the stall is applied afterwards, so the
drained state should have `a1 = true`.  The code's
`while let Pause(true) = recv()` loop exits on the `Button` message itself
and discards it, so `a1` is still `false` after the drain. -/
theorem c2_pause_counterexample :
    Option.map (fun s => getButton s.buttons ButtonName.A1)
      (drain 256 240 drainInit
        [Message.pause true, Message.button ButtonName.A1 true, Message.pause false])
      = some false := by
  rfl

/-- C2 (amended): draining `Pause(true)` blocks on the channel; any number
of further `Pause(true)` messages keep it blocked; the first message `m`
that is not `Pause(true)` (whether or not it is `Pause(false)`) ends the
stall, is consumed and DISCARDED, and resets the pacing reference clock
(`lastTickReset`); the messages after `m` remain queued and are applied in
send order; and if every queued message is `Pause(true)` the drain blocks
(`none`). -/
theorem c2_pause_drain (winW winH : ℚ) (s : DrainState)
    (pre : List Message) (m : Message) (rest : List Message)
    (hpre : ∀ x ∈ pre, x = Message.pause true) (hm : m ≠ Message.pause true) :
    drain winW winH s (Message.pause true :: (pre ++ m :: rest)) =
      drain winW winH { s with lastTickReset := true } rest ∧
    drain winW winH s (Message.pause true :: pre) = none := by
  constructor
  · show drainAux winW winH true s (pre ++ m :: rest) = _
    rw [drainAux_stall_skip winW winH s pre (m :: rest) hpre]
    match m, hm with
    | .button name pressed, _ => rfl
    | .pause false, _ => rfl
    | .pause true, hm => exact absurd rfl hm
    | .pixelPointed x y, _ => rfl
  · show drainAux winW winH true s pre = _
    have := drainAux_stall_skip winW winH s pre [] hpre
    rw [List.append_nil] at this
    rw [this]
    rfl

/-- C2 witness: a concrete stall of two `Pause(true)` messages ended by a
discarded button press, and a concrete all-`Pause(true)` queue that
blocks. -/
theorem c2_pause_drain_w :
    drain 256 240 drainInit
        [Message.pause true, Message.pause true, Message.button ButtonName.A1 true] =
      drain 256 240 { drainInit with lastTickReset := true } [] ∧
    drain 256 240 drainInit [Message.pause true, Message.pause true] = none :=
  c2_pause_drain 256 240 drainInit [Message.pause true]
    (Message.button ButtonName.A1 true) [] (by simp) (by simp)

/-!
## Button drain (claim C6)
-/

/-- `getButton` after `setButton`: the named flag is overwritten and every
other flag is untouched. -/
theorem getButton_setButton (b : Buttons) (n m : ButtonName) (p : Bool) :
    getButton (setButton b n p) m = if n = m then p else getButton b m := by
  cases n <;> cases m <;> simp [getButton, setButton]

/-- The value a button should hold after a sequence of (name, pressed)
updates applied in send order: the last value sent for `name`, or the
default `d` when none was sent.  (This is the spec's "most recent value
sent for that button".) -/
def lastOr (d : Bool) (name : ButtonName) : List (ButtonName × Bool) → Bool
  | [] => d
  | np :: rest => lastOr (if np.1 = name then np.2 else d) name rest

/-- C6: draining any sequence of Button messages before a step leaves each
button holding the most recent value sent for it (applied in send order),
and every button with no message keeps its prior value. -/
theorem c6_button_drain (winW winH : ℚ) (s : DrainState)
    (msgs : List (ButtonName × Bool)) (name : ButtonName) :
    Option.map (fun t => getButton t.buttons name)
        (drain winW winH s (msgs.map (fun np => Message.button np.1 np.2)))
      = some (lastOr (getButton s.buttons name) name msgs) := by
  induction msgs generalizing s with
  | nil => rfl
  | cons np rest ih =>
      show Option.map _
          (drain winW winH
            { s with buttons := setButton s.buttons np.1 np.2 }
            (rest.map (fun np => Message.button np.1 np.2))) = _
      rw [ih { s with buttons := setButton s.buttons np.1 np.2 }]
      simp [lastOr, getButton_setButton]

/-!
## The batched stepping loop of `run_ppu` (claims C4, C5, C8)

The headless scheduler (dummy writer: no channel, no sampling) is the mode
the bounded/unbounded termination claims are about.  The CPU collaborator
is abstracted by `tick : Nat → Bool`, giving the success of the k-th
(0-based) `cpu.tick` call.  One inner batch performs `ITER_PER_CYCLE =
1000` iterations; each iteration calls `cpu.tick` and, on success,
`ppu.update` three times.  A failed tick returns immediately with the
total number of tick calls made and the total number of PPU updates
performed (three per successful tick).  After a full batch, `cycles +=
1000`, and with `Some(max_cycles)` the loop breaks with `Ok` once
`cycles > max_cycles`.  The outer loop is given explicit fuel (number of
batches); `none` means the fuel ran out, so `some` results are exactly the
terminating executions.  Real-time pacing (sleeping) does not affect any
of the modelled observables and is omitted.
-/

/-- One inner batch of `run_ppu`: `n` iterations starting after `ticks`
successful tick calls.  `ok` carries the updated tick count, `error`
carries (total tick calls made, total PPU updates performed). -/
def innerBatch (tick : Nat → Bool) : Nat → Nat → Except (Nat × Nat) Nat
  | ticks, 0 => .ok ticks
  | ticks, n + 1 =>
      if tick ticks then innerBatch tick (ticks + 1) n
      else .error (ticks + 1, 3 * ticks)

/-- The outer loop of `run_ppu` with explicit batch fuel.  `ok` carries
the final `cycles` counter (equal to the number of tick calls). -/
def run_ppu (tick : Nat → Bool) (max_cycles : Option Nat) : Nat → Nat → Option (Except (Nat × Nat) Nat)
  | 0, _ => none
  | fuel + 1, cycles =>
      match innerBatch tick cycles 1000 with
      | .error e => some (.error e)
      | .ok cycles2 =>
          match max_cycles with
          | some l =>
              if l < cycles2 then some (.ok cycles2)
              else run_ppu tick max_cycles fuel cycles2
          | none => run_ppu tick max_cycles fuel cycles2

/-- A batch in which every tick succeeds completes with `n` more ticks. -/
theorem innerBatch_ok (tick : Nat → Bool) (ticks n : Nat)
    (h : ∀ j, j < n → tick (ticks + j) = true) :
    innerBatch tick ticks n = .ok (ticks + n) := by
  induction n generalizing ticks with
  | zero => rfl
  | succ n ih =>
      have h0 : tick ticks = true := by simpa using h 0 (by omega)
      have := ih (ticks + 1) (fun j hj => by
        have := h (j + 1) (by omega)
        simpa [Nat.add_assoc, Nat.add_comm 1 j] using this)
      simp [innerBatch, h0, this]
      omega

/-- A batch that reaches the first failing tick (`tick (N-1) = false`,
all earlier ticks succeeding) stops there: `N` tick calls in total,
`3 * (N - 1)` PPU updates. -/
theorem innerBatch_fail (tick : Nat → Bool) (N ticks n : Nat)
    (h1 : 1 ≤ N) (hsucc : ∀ k, k + 1 < N → tick k = true)
    (hfail : tick (N - 1) = false)
    (hlo : ticks ≤ N - 1) (hhi : N - 1 < ticks + n) :
    innerBatch tick ticks n = .error (N, 3 * (N - 1)) := by
  induction n generalizing ticks with
  | zero => omega
  | succ n ih =>
      by_cases hc : ticks = N - 1
      · subst hc
        have : N - 1 + 1 = N := by omega
        simp [innerBatch, hfail, this]
      · have hts : tick ticks = true := hsucc ticks (by omega)
        have := ih (ticks + 1) (by omega) (by omega)
        simp [innerBatch, hts, this]

/-- More fuel never changes a terminating run. -/
theorem run_ppu_mono (tick : Nat → Bool) (mc : Option Nat)
    (fuel fuel2 cycles : Nat) (r : Except (Nat × Nat) Nat)
    (h : run_ppu tick mc fuel cycles = some r) (hle : fuel ≤ fuel2) :
    run_ppu tick mc fuel2 cycles = some r := by
  induction fuel generalizing fuel2 cycles with
  | zero => simp [run_ppu] at h
  | succ fuel ih =>
      obtain ⟨fuel2, rfl⟩ : ∃ f, fuel2 = f + 1 := ⟨fuel2 - 1, by omega⟩
      rw [run_ppu] at h
      rw [run_ppu]
      match hb : innerBatch tick cycles 1000 with
      | .error e => rw [hb] at h; exact h
      | .ok cycles2 =>
          rw [hb] at h
          match mc with
          | none => exact ih fuel2 cycles2 h (by omega)
          | some l =>
              by_cases hl : l < cycles2
              · simpa [hl] using h
              · simp only [hl, if_false] at h ⊢
                exact ih fuel2 cycles2 h (by omega)

/-- With an always-succeeding CPU, the bounded loop started at cycle count
`1000 * i` with `f` batches of fuel left (`i + f = L / 1000 + 1`, `f ≥ 1`)
terminates with `Ok` at the first multiple of 1000 exceeding `L`. -/
theorem run_ppu_ok_of_allOk (L : Nat) (tick : Nat → Bool)
    (hok : ∀ n, tick n = true) :
    ∀ f i, i + f = L / 1000 + 1 → 1 ≤ f →
      run_ppu tick (some L) f (1000 * i) = some (.ok (1000 * (L / 1000 + 1))) := by
  intro f
  induction f with
  | zero => omega
  | succ f ih =>
      intro i hif _
      have hb : innerBatch tick (1000 * i) 1000 = .ok (1000 * (i + 1)) := by
        have := innerBatch_ok tick (1000 * i) 1000 (fun j _ => hok _)
        rw [this]
        congr 1
      rw [run_ppu, hb]
      by_cases hl : L < 1000 * (i + 1)
      · have : i = L / 1000 := by omega
        subst this
        simp [hl]
      · have h1f : 1 ≤ f := by omega
        have := ih (i + 1) (by omega) h1f
        simp only [hl, if_false]
        exact this

/-- C4: with a cycle limit `L` and a CPU whose step always succeeds, the
run terminates (with the explicit batch fuel `L / 1000 + 1`), returns
`Ok`, and has stepped `1000 * (L / 1000 + 1) ≥ L` cycles — at least `L`,
as the first batch boundary strictly exceeding the limit. -/
theorem c4_bounded_returns_ok (L : Nat) (tick : Nat → Bool)
    (hok : ∀ n, tick n = true) :
    run_ppu tick (some L) (L / 1000 + 1) 0 = some (.ok (1000 * (L / 1000 + 1))) ∧
    L ≤ 1000 * (L / 1000 + 1) := by
  have := run_ppu_ok_of_allOk L tick hok (L / 1000 + 1) 0 (by omega) (by omega)
  constructor
  · simpa using this
  · omega

/-- C4 witness: a limit of 5 cycles with an always-succeeding CPU returns
`Ok` after one 1000-tick batch. -/
theorem c4_bounded_returns_ok_w :
    run_ppu (fun _ => true) (some 5) (5 / 1000 + 1) 0 =
      some (.ok (1000 * (5 / 1000 + 1))) ∧
    5 ≤ 1000 * (5 / 1000 + 1) :=
  c4_bounded_returns_ok 5 (fun _ => true) (fun _ => rfl)

/-- The loop reaches the first failing tick and returns its error, as long
as the failing step is within the fuel and, in bounded mode, the limit is
not crossed strictly before it. -/
theorem run_ppu_fail_reached (N : Nat) (tick : Nat → Bool) (mc : Option Nat)
    (h1 : 1 ≤ N) (hsucc : ∀ k, k + 1 < N → tick k = true)
    (hfail : tick (N - 1) = false)
    (hmc : ∀ L, mc = some L → N ≤ 1000 * (L / 1000 + 1)) :
    ∀ fuel b, 1000 * b ≤ N - 1 → N - 1 < 1000 * b + 1000 * fuel →
      run_ppu tick mc fuel (1000 * b) = some (.error (N, 3 * (N - 1))) := by
  intro fuel
  induction fuel with
  | zero => omega
  | succ fuel ih =>
      intro b hlo hhi
      by_cases hc : N - 1 < 1000 * b + 1000
      · have hb := innerBatch_fail tick N (1000 * b) 1000 h1 hsucc hfail hlo hc
        rw [run_ppu, hb]
      · have hball : innerBatch tick (1000 * b) 1000 = .ok (1000 * (b + 1)) := by
          have := innerBatch_ok tick (1000 * b) 1000 (fun j hj => hsucc _ (by omega))
          rw [this]
          congr 1
        rw [run_ppu, hball]
        have hrec := ih (b + 1) (by omega) (by omega)
        match mc, hmc with
        | none, _ => simpa using hrec
        | some L, hmc =>
            have hN := hmc L rfl
            have : ¬ (L < 1000 * (b + 1)) := by omega
            simpa [this] using hrec

/-- C5 (amended): with a CPU that succeeds on its first `N - 1` steps and
fails on step `N`, the unbounded run, and every bounded run whose limit is
not exhausted strictly before step `N` (`N ≤ 1000 * (L / 1000 + 1)`, the
number of ticks a limit-`L` run executes), terminates with `Err` after
exactly `N` CPU tick calls and `3 * (N - 1)` PPU updates — i.e. no PPU
update is performed for step `N` or any later step.  (A bounded run whose
limit is crossed before step `N` instead returns `Ok`; see the
counterexample.) -/
theorem c5_err_after_exactly_n (N : Nat) (tick : Nat → Bool) (mc : Option Nat)
    (h1 : 1 ≤ N) (hsucc : ∀ k, k + 1 < N → tick k = true)
    (hfail : tick (N - 1) = false)
    (hmc : ∀ L, mc = some L → N ≤ 1000 * (L / 1000 + 1)) :
    run_ppu tick mc (N / 1000 + 1) 0 = some (.error (N, 3 * (N - 1))) := by
  have := run_ppu_fail_reached N tick mc h1 hsucc hfail hmc (N / 1000 + 1) 0
    (by omega) (by omega)
  simpa using this

/-- C5 witness: a CPU failing on its very first step makes the unbounded
run return `Err` after exactly one tick call and zero PPU updates. -/
theorem c5_err_after_exactly_n_w :
    run_ppu (fun _ => false) none (1 / 1000 + 1) 0 =
      some (.error (1, 3 * (1 - 1))) :=
  c5_err_after_exactly_n 1 (fun _ => false) none (Nat.le_refl 1)
    (fun _ hk => absurd hk (by omega)) rfl (fun _ h => nomatch h)

/-- A CPU-step function that succeeds on steps 1..1000 and fails
deterministically on step 1001. -/
def failAt1001 : Nat → Bool := fun k => decide (k < 1000)

/-- C5 counterexample: a BOUNDED run can return `Ok`, not `Err`, for a CPU
that deterministically fails at step 1001: with `cycle_limit = 0` the loop
breaks with `Ok` after its first 1000-tick batch, before ever reaching the
failing step.  This falsifies the claim's "bounded or unbounded" clause. -/
theorem c5_bounded_ok_counterexample :
    run_ppu failAt1001 (some 0) 1 0 = some (.ok 1000) ∧
    failAt1001 1000 = false := by
  constructor
  · have hb : innerBatch failAt1001 0 1000 = .ok 1000 := by
      have := innerBatch_ok failAt1001 0 1000 (fun j hj => by
        simp only [failAt1001, decide_eq_true_eq]
        omega)
      simpa using this
    rw [run_ppu, hb]
    norm_num
  · decide

/-- C8: the unbounded run never returns `Ok`: every terminating execution
of the loop with `max_cycles = None` returns a CPU-step error. -/
theorem c8_unbounded_never_ok (tick : Nat → Bool) (fuel cycles : Nat)
    (r : Except (Nat × Nat) Nat)
    (h : run_ppu tick none fuel cycles = some r) : ∃ e, r = Except.error e := by
  induction fuel generalizing cycles with
  | zero => simp [run_ppu] at h
  | succ fuel ih =>
      rw [run_ppu] at h
      match hb : innerBatch tick cycles 1000 with
      | .error e =>
          rw [hb] at h
          exact ⟨e, (Option.some.inj h).symm⟩
      | .ok cycles2 =>
          rw [hb] at h
          exact ih cycles2 h

/-- C8 witness: a concrete terminating unbounded run (CPU fails at once)
returns an error. -/
theorem c8_unbounded_never_ok_w :
    run_ppu (fun _ => false) none 1 0 = some (Except.error (1, 0)) ∧
    ∃ e, (Except.error (1, 0) : Except (Nat × Nat) Nat) = Except.error e :=
  ⟨rfl, c8_unbounded_never_ok (fun _ => false) 1 0 (Except.error (1, 0)) rfl⟩

/-!
## Pointed-pixel sampling (`run.rs`, inner loop; claim C3)

After each PPU update with a real writer, the code executes
`ppu.pointed_pixel[..2].clone_from_slice(&frame[4*(py*WIDTH+px) .. 4*(py*WIDTH+px)+3])`.
`clone_from_slice` panics unless the two slices have equal length;
panics are modelled as `none`.  Note the destination slice `[..2]` has
length 2 while the source range has length 3.
-/

/-- Rust's `clone_from_slice`: requires equal lengths, then the
destination becomes a copy of the source. -/
def cloneFromSlice (dst src : List Nat) : Option (List Nat) :=
  if dst.length = src.length then some src else none

/-- The pointed-pixel sampling statement of `run_ppu`: copy the byte range
`4*(py*WIDTH+px) .. +3` of the locked shared frame into
`pointed_pixel[..2]`.  `none` models a panic (range out of bounds of the
frame, or `clone_from_slice` length mismatch). -/
def samplePointed (pointed frame : List Nat) (px py : Nat) : Option (List Nat) :=
  let k := 4 * (py * WIDTH + px)
  if k + 3 ≤ frame.length then
    match cloneFromSlice (pointed.take 2) ((frame.drop k).take 3) with
    | some s => some (s ++ pointed.drop 2)
    | none => none
  else none

/-- C3: the pointed-pixel sample never overwrites the 3-byte buffer — it
panics instead: the destination slice `pointed_pixel[..2]` has length 2
while the source slice has length 3, so `clone_from_slice` always fails
whenever presentation is active and the source range is inside the frame.
The spec (buffer "entirely overwritten", 3 bytes R,G,B) is the intent;
the `[..2]` bound is the slip. -/
theorem c3_sample_panics (pointed frame : List Nat) (px py : Nat)
    (hp : pointed.length = 3)
    (hf : 4 * (py * WIDTH + px) + 3 ≤ frame.length) :
    samplePointed pointed frame px py = none := by
  have hdst : (pointed.take 2).length = 2 := by
    rw [List.length_take]
    omega
  have hsrc : ((frame.drop (4 * (py * WIDTH + px))).take 3).length = 3 := by
    rw [List.length_take, List.length_drop]
    omega
  simp only [samplePointed, cloneFromSlice, hf, if_true, hdst, hsrc]
  norm_num

/-- C3 witness: a concrete in-range sample panics. -/
theorem c3_sample_panics_w :
    samplePointed [0, 0, 0] [0, 0, 0, 0] 0 0 = none :=
  c3_sample_panics [0, 0, 0] [0, 0, 0, 0] 0 0 (by decide)
    (by simp [WIDTH])

/-!
## Shared frame surface (`screen.rs`; claims C7, C10)

`ScreenWriter::render_frame` copies the entire private staging buffer into
the locked shared surface with a single `clone_from_slice` (equal lengths
required).  Every access to the shared surface in the sources happens with
the mutex held, so an execution is a sequence of atomic operations on the
surface; `runOps` runs such a sequence, collecting the buffer each read
observes.
-/

/-- `ScreenWriter::render_frame` (the `Real` arm): the shared surface
becomes a whole-buffer copy of the staging buffer; a length mismatch is a
`clone_from_slice` panic (`none`). -/
def render_frame (staging shared : List Nat) : Option (List Nat) :=
  if shared.length = staging.length then some staging else none

/-- One lock-protected operation on the shared surface: a writer publish
of a staging buffer, or a reader lock-and-read. -/
inductive SurfOp where
  | publish : List Nat → SurfOp
  | read : SurfOp
deriving DecidableEq

/-- Run a sequence of atomic surface operations starting from `shared`:
returns the final surface and the list of buffers the reads observed, or
`none` if a publish panicked. -/
def runOps (shared : List Nat) : List SurfOp → Option (List Nat × List (List Nat))
  | [] => some (shared, [])
  | SurfOp.publish b :: rest =>
      match render_frame b shared with
      | some shared2 => runOps shared2 rest
      | none => none
  | SurfOp.read :: rest =>
      match runOps shared rest with
      | some (fin, reads) => some (fin, shared :: reads)
      | none => none

/-- C7: publication is a single locked whole-buffer copy.  (1) In any
interleaving that begins with a publish immediately followed by a read,
the read observes content byte-identical to the staging buffer at the time
of publish.  (2) In every interleaving, every read observes either the
initial surface or the entire staging buffer of some publish — never a
torn or partially written frame. -/
theorem c7_publish_whole_buffer :
    (∀ (shared staging : List Nat) (rest : List SurfOp)
        (res : List Nat × List (List Nat)),
        shared.length = staging.length →
        runOps shared (SurfOp.publish staging :: SurfOp.read :: rest) = some res →
        res.2.head? = some staging) ∧
    (∀ (shared : List Nat) (ops : List SurfOp)
        (res : List Nat × List (List Nat)),
        runOps shared ops = some res →
        ∀ r ∈ res.2, r = shared ∨ ∃ b, SurfOp.publish b ∈ ops ∧ r = b) := by
  have key : ∀ (ops : List SurfOp) (shared : List Nat)
      (res : List Nat × List (List Nat)),
      runOps shared ops = some res →
      ∀ r ∈ res.2, r = shared ∨ ∃ b, SurfOp.publish b ∈ ops ∧ r = b := by
    intro ops
    induction ops with
    | nil =>
        intro shared res h r hr
        simp only [runOps, Option.some.injEq] at h
        subst h
        simp at hr
    | cons op rest ih =>
        intro shared res h r hr
        match op with
        | SurfOp.publish b =>
            by_cases hl : shared.length = b.length
            · simp only [runOps, render_frame, if_pos hl] at h
              rcases ih b res h r hr with h1 | ⟨c, hc, hrc⟩
              · exact Or.inr ⟨b, by simp, h1⟩
              · exact Or.inr ⟨c, by simp [hc], hrc⟩
            · simp only [runOps, render_frame, if_neg hl] at h
              exact absurd h (by simp)
        | SurfOp.read =>
            rw [runOps] at h
            match hrec : runOps shared rest with
            | some (fin, reads) =>
                rw [hrec] at h
                obtain rfl : (fin, shared :: reads) = res := Option.some.inj h
                rcases List.mem_cons.mp hr with rfl | hr2
                · exact Or.inl rfl
                · rcases ih shared (fin, reads) hrec r hr2 with h1 | ⟨c, hc, hrc⟩
                  · exact Or.inl h1
                  · exact Or.inr ⟨c, by simp [hc], hrc⟩
            | none => rw [hrec] at h; exact absurd h (by simp)
  constructor
  · intro shared staging rest res hlen h
    simp only [runOps, render_frame, if_pos hlen] at h
    match hrec : runOps staging rest with
    | some (fin, reads) =>
        rw [hrec] at h
        obtain rfl : (fin, staging :: reads) = res := Option.some.inj h
        rfl
    | none => rw [hrec] at h; exact absurd h (by simp)
  · exact fun shared ops res h => key ops shared res h

/-- C7 witness: a concrete publish-then-read interleaving observes exactly
the published staging buffer, and a concrete read-only interleaving
observes the initial surface whole. -/
theorem c7_publish_whole_buffer_w :
    (([1], [[1]]) : List Nat × List (List Nat)).2.head? = some [1] ∧
    (([0] : List Nat) = [0] ∨ ∃ b, SurfOp.publish b ∈ [SurfOp.read] ∧ [0] = b) :=
  ⟨c7_publish_whole_buffer.1 [0] [1] [] ([1], [[1]]) rfl rfl,
   c7_publish_whole_buffer.2 [0] [SurfOp.read] ([0], [[0]]) rfl [0] (by simp)⟩

/-- `ScreenWriter::draw_pixel` (the `Real` arm): four sequential indexed
writes of R, G, B and alpha `0xff` into the staging buffer at offset
`4 * (y * WIDTH + x)`, with no bounds check on `x` or `y`; indexing past
the buffer end panics (`none`). -/
def draw_pixel (pixels : List Nat) (x y r g b : Nat) : Option (List Nat) :=
  let k := 4 * (y * WIDTH + x)
  if k + 3 < pixels.length then
    some ((((pixels.set k r).set (k + 1) g).set (k + 2) b).set (k + 3) 255)
  else none

/-- Writing four consecutive in-range positions is surgery on the list:
the prefix and the tail are untouched and the four bytes land in between. -/
theorem set4_surgery (k : Nat) : ∀ (l : List Nat) (r g b : Nat),
    k + 3 < l.length →
    (((l.set k r).set (k + 1) g).set (k + 2) b).set (k + 3) 255 =
      l.take k ++ r :: g :: b :: 255 :: l.drop (k + 4) := by
  induction k with
  | zero =>
      intro l r g b h
      match l, h with
      | a :: c :: d :: e :: t, _ => rfl
  | succ k ih =>
      intro l r g b h
      match l, h with
      | a :: t, h =>
          have ht : k + 3 < t.length := by
            simp only [List.length_cons] at h
            omega
          show a :: ((((t.set k r).set (k + 1) g).set (k + 2) b).set (k + 3) 255) =
            a :: (t.take k ++ r :: g :: b :: 255 :: t.drop (k + 4))
          exact congrArg (List.cons a) (ih t r g b ht)

/-- C10: `draw_pixel` performs no bounds check on its coordinates.  When
the computed byte offset fits in the staging buffer it writes exactly the
four bytes R, G, B, `0xff` there and leaves every other byte unchanged —
with no requirement that `x < WIDTH`, so an overflowing `x` silently lands
in a different row (`x = WIDTH, y = 0` writes the same bytes as
`x = 0, y = 1`).  When the offset reaches past the buffer end the call
panics (`none`) instead of returning an error. -/
theorem c10_draw_pixel_unchecked (pixels : List Nat) (x y r g b : Nat) :
    (4 * (y * WIDTH + x) + 3 < pixels.length →
       draw_pixel pixels x y r g b =
         some (pixels.take (4 * (y * WIDTH + x)) ++
           r :: g :: b :: 255 :: pixels.drop (4 * (y * WIDTH + x) + 4))) ∧
    (pixels.length ≤ 4 * (y * WIDTH + x) + 3 →
       draw_pixel pixels x y r g b = none) ∧
    draw_pixel pixels WIDTH 0 r g b = draw_pixel pixels 0 1 r g b := by
  refine ⟨?_, ?_, ?_⟩
  · intro h
    simp only [draw_pixel, if_pos h]
    rw [set4_surgery (4 * (y * WIDTH + x)) pixels r g b h]
  · intro h
    simp only [draw_pixel]
    rw [if_neg (by omega)]
  · rfl

/-- C10 witness: an in-range write at `x = WIDTH` (wrapping into row 1)
produces the four-byte surgery, and a write into an empty staging buffer
panics. -/
theorem c10_draw_pixel_unchecked_w :
    draw_pixel (List.replicate 2048 0) WIDTH 0 1 2 3 =
      some ((List.replicate 2048 0).take (4 * (0 * WIDTH + WIDTH)) ++
        1 :: 2 :: 3 :: 255 :: (List.replicate 2048 0).drop (4 * (0 * WIDTH + WIDTH) + 4)) ∧
    draw_pixel [] 0 0 1 2 3 = none :=
  ⟨(c10_draw_pixel_unchecked (List.replicate 2048 0) WIDTH 0 1 2 3).1
      (by rw [List.length_replicate]; norm_num [WIDTH]),
   (c10_draw_pixel_unchecked [] 0 0 1 2 3).2.1 (by simp)⟩
